import Mathlib

/-!
Shallow embedding of the blockchain demo in `src/c/blockchain_demo.c`.

The C program maintains a singly linked list of blocks.  The embedding
represents the chain as a `List Block` in front-to-back order (the `next`
pointers of the C struct become list successorship), machine integers as
`Int`/`Nat` with explicit reduction modulo `2 ^ 64` where the C computation
overflows, the per-block transaction array plus its count as a `List
Transaction` whose length is kept below the capacity by `add_transaction`,
and the console reports of `add_transaction` and `verify_blockchain` as
returned values (`Bool`, respectively `Option Int`).  C `double` amounts are
only stored, never computed with, so they are embedded as rational numbers.
Timestamps produced by `time(NULL)` are passed in explicitly.
-/

/-- MAX_TRANSACTIONS from the source: the fixed per-block transaction
capacity. -/
def MAX_TRANSACTIONS : Nat := 10

/-- HASH_LENGTH from the source: the buffer-size argument used when the block
hash text is formatted (the hash buffers are declared with one extra byte for
the terminator). -/
def HASH_LENGTH : Nat := 32

/-- Transaction record of the source (sender, receiver, amount, timestamp). -/
structure Transaction where
  sender : String
  receiver : String
  amount : Rat
  timestamp : Int
deriving DecidableEq

/-- Block record of the source.  `transaction_count` of the C struct is the
length of `transactions`; the `next` pointer is represented by list position. -/
structure Block where
  index : Int
  previous_hash : String
  transactions : List Transaction
  timestamp : Int
  current_hash : String
deriving DecidableEq

instance : Inhabited Block := ⟨⟨0, "", [], 0, ""⟩⟩

/-- Truncation of a string to its first `n` characters, as performed by
`snprintf` with buffer size `n + 1` (byte counts and character counts agree on
the ASCII data this program formats). -/
def strTake (s : String) (n : Nat) : String := String.mk (s.data.take n)

/-- simple_hash from the source: the DJB2 loop `hash = hash * 33 + c` over the
characters of the string, computed in a 64-bit unsigned long. -/
def simple_hash (data : String) : Nat :=
  data.data.foldl (fun h c => (h * 33 + c.toNat) % 2 ^ 64) 5381

/-- add_transaction from the source: when `transaction_count < MAX_TRANSACTIONS`
it appends the transaction (each name truncated to 63 bytes by `snprintf`),
stamps it with the current time and prints a confirmation; otherwise it prints
"Block full! Cannot add transaction." and leaves the block unchanged.  The
printed confirmation or rejection is returned as the `Bool` component. -/
def add_transaction (block : Block) (sender receiver : String) (amount : Rat)
    (now : Int) : Block × Bool :=
  if block.transactions.length < MAX_TRANSACTIONS then
    ({ block with transactions := block.transactions ++
        [{ sender := strTake sender 63, receiver := strTake receiver 63,
           amount := amount, timestamp := now }] }, true)
  else
    (block, false)

/-- Hexadecimal rendering of a natural number as produced by `printf "%lx"`:
lowercase digits, no leading zeros, and "0" for zero. -/
def hex_repr (n : Nat) : String := String.mk (Nat.toDigits 16 n)

/-- Hash text computed by calculate_block_hash in the source: simple_hash of
the "%d%s%ld" concatenation of `index`, `previous_hash` and `timestamp`,
rendered with "%lx".  The `snprintf` calls cap the concatenation at 255 bytes
and the rendered hash at `HASH_LENGTH - 1 = 31` bytes. -/
def block_hash_string (block : Block) : String :=
  strTake
    (hex_repr (simple_hash
      (strTake (toString block.index ++ block.previous_hash ++ toString block.timestamp) 255)))
    (HASH_LENGTH - 1)

/-- calculate_block_hash from the source: computes the hash text from `index`,
`previous_hash` and `timestamp` and writes it into `current_hash`. -/
def calculate_block_hash (block : Block) : Block :=
  { block with current_hash := block_hash_string block }

/-- Sentinel previous hash installed by create_genesis_block: the 38-character
all-zero string literal of the source.  (The source `strcpy`s this literal into
a 33-byte array, overrunning it; that memory-layout accident is outside this
embedding, which keeps the string value.) -/
def GENESIS_PREV_HASH : String := "00000000000000000000000000000000000000"

/-- create_genesis_block from the source: allocates the first block with index
0, the sentinel previous hash, no transactions and the current time, then
computes its hash.  The freshly allocated `current_hash` holds unspecified
memory contents until calculate_block_hash overwrites it; the placeholder ""
below is overwritten before the function returns. -/
def create_genesis_block (now : Int) : Block :=
  calculate_block_hash
    { index := 0, previous_hash := GENESIS_PREV_HASH, transactions := [],
      timestamp := now, current_hash := "" }

/-- add_block from the source.  The tail is located by following `next`
pointers; a new block is allocated with `index = tail.index + 1`,
`previous_hash` copied from `tail.current_hash`, no transactions and the
current time `tBlock`, and is linked as the tail's successor; the two
hard-coded sample transactions are then added (with timestamps `t1` and `t2`
from their own `time(NULL)` calls) and finally the hash is computed.  The
source performs the link before seeding and hashing; the resulting final chain
is the same, and `add_block_states` below records the intermediate states in
source order.  On an empty chain the source dereferences a null pointer; the
embedding returns the chain unchanged and no theorem relies on that case. -/
def add_block (chain : List Block) (tBlock t1 t2 : Int) : List Block :=
  match chain.getLast? with
  | none => chain
  | some tail =>
    let nb0 : Block :=
      { index := tail.index + 1, previous_hash := tail.current_hash,
        transactions := [], timestamp := tBlock, current_hash := "" }
    let nb1 := (add_transaction nb0 "Alice" "Bob" (1.5 : Rat) t1).1
    let nb2 := (add_transaction nb1 "Charlie" "Dave" (0.75 : Rat) t2).1
    chain ++ [calculate_block_hash nb2]

/-- Intermediate chain states during one add_block call, in the order the
source produces them: the state before the call, the state right after
`last_block->next = new_block` (where the fresh block's `current_hash` still
holds its uninitialized allocation contents, here the parameter `g`), the
states after each of the two sample transactions, and the state after
calculate_block_hash. -/
def add_block_states (chain : List Block) (g : String) (tBlock t1 t2 : Int) :
    List (List Block) :=
  match chain.getLast? with
  | none => [chain]
  | some tail =>
    let nb0 : Block :=
      { index := tail.index + 1, previous_hash := tail.current_hash,
        transactions := [], timestamp := tBlock, current_hash := g }
    let nb1 := (add_transaction nb0 "Alice" "Bob" (1.5 : Rat) t1).1
    let nb2 := (add_transaction nb1 "Charlie" "Dave" (0.75 : Rat) t2).1
    [chain, chain ++ [nb0], chain ++ [nb1], chain ++ [nb2],
     chain ++ [calculate_block_hash nb2]]

/-- verify_blockchain from the source: walks the chain and, for each adjacent
pair, compares the successor's `previous_hash` with the current block's
`current_hash` via `strcmp`.  On the first mismatch it prints the offending
successor's index and returns 0, embedded as `some` of that index; a complete
pass returns 1, embedded as `none`. -/
def verify_blockchain : List Block → Option Int
  | cur :: next :: rest =>
    if next.previous_hash = cur.current_hash then verify_blockchain (next :: rest)
    else some next.index
  | _ => none

/-- Chains built solely by create_genesis_block followed by add_block calls
(no external mutation); each step carries the three `time(NULL)` results
observed during that add_block call. -/
def build_chain (g : Int) (steps : List (Int × Int × Int)) : List Block :=
  steps.foldl (fun c s => add_block c s.1 s.2.1 s.2.2) [create_genesis_block g]

/-- Overwriting the `previous_hash` field of the block at position `j`
(external mutation of a stored chain, as in the tampering scenario of the
specification). -/
def overwrite_prev_hash : List Block → Nat → String → List Block
  | [], _, _ => []
  | b :: rest, 0, s => { b with previous_hash := s } :: rest
  | b :: rest, j + 1, s => b :: overwrite_prev_hash rest j s

/-- Adjacency condition checked by verify_blockchain for the pair at positions
`i` and `i + 1`. -/
def pair_ok (c : List Block) (i : Nat) : Prop :=
  (c.getD (i + 1) default).previous_hash = (c.getD i default).current_hash

/-- Invariant of every chain reachable from create_genesis_block by add_block
calls: nonempty, headed by the genesis block, indices equal to positions, and
accepted by verify_blockchain. -/
def BuiltInv (g : Int) (c : List Block) : Prop :=
  c ≠ [] ∧
  c.head? = some (create_genesis_block g) ∧
  (∀ i, i < c.length → (c.getD i default).index = (i : Int)) ∧
  verify_blockchain c = none

/-- Concrete block holding MAX_TRANSACTIONS transactions, used to exercise the
capacity-exhaustion branch of add_transaction. -/
def full_block : Block :=
  { index := 0, previous_hash := "", timestamp := 0, current_hash := "",
    transactions :=
      List.replicate 10 { sender := "s", receiver := "r", amount := 1, timestamp := 0 } }

lemma strTake_Alice : strTake "Alice" 63 = "Alice" := by decide

lemma strTake_Bob : strTake "Bob" 63 = "Bob" := by decide

lemma strTake_Charlie : strTake "Charlie" 63 = "Charlie" := by decide

lemma strTake_Dave : strTake "Dave" 63 = "Dave" := by decide

lemma verify_cons_cons (a b : Block) (rest : List Block) :
    verify_blockchain (a :: b :: rest) =
      if b.previous_hash = a.current_hash then verify_blockchain (b :: rest)
      else some b.index := rfl

lemma verify_singleton (a : Block) : verify_blockchain [a] = none := rfl

lemma getLast?_chain (a b : Block) (rest : List Block) :
    (a :: b :: rest).getLast? = (b :: rest).getLast? := rfl

/-- Closed form of add_block on a nonempty chain. -/
lemma add_block_eq (chain : List Block) (tail : Block)
    (h : chain.getLast? = some tail) (tB t1 t2 : Int) :
    add_block chain tB t1 t2 = chain ++ [calculate_block_hash
      { index := tail.index + 1, previous_hash := tail.current_hash,
        transactions :=
          [{ sender := "Alice", receiver := "Bob", amount := 1.5, timestamp := t1 },
           { sender := "Charlie", receiver := "Dave", amount := 0.75, timestamp := t2 }],
        timestamp := tB, current_hash := "" }] := by
  simp [add_block, h, add_transaction, MAX_TRANSACTIONS, strTake_Alice, strTake_Bob,
    strTake_Charlie, strTake_Dave]

/-- Closed form of add_block_states on a nonempty chain. -/
lemma add_block_states_eq (chain : List Block) (tail : Block)
    (h : chain.getLast? = some tail) (g : String) (tB t1 t2 : Int) :
    add_block_states chain g tB t1 t2 =
      [chain,
       chain ++ [{ index := tail.index + 1, previous_hash := tail.current_hash,
                   transactions := [], timestamp := tB, current_hash := g }],
       chain ++ [{ index := tail.index + 1, previous_hash := tail.current_hash,
                   transactions :=
                     [{ sender := "Alice", receiver := "Bob", amount := 1.5, timestamp := t1 }],
                   timestamp := tB, current_hash := g }],
       chain ++ [{ index := tail.index + 1, previous_hash := tail.current_hash,
                   transactions :=
                     [{ sender := "Alice", receiver := "Bob", amount := 1.5, timestamp := t1 },
                      { sender := "Charlie", receiver := "Dave", amount := 0.75, timestamp := t2 }],
                   timestamp := tB, current_hash := g }],
       chain ++ [calculate_block_hash
         { index := tail.index + 1, previous_hash := tail.current_hash,
           transactions :=
             [{ sender := "Alice", receiver := "Bob", amount := 1.5, timestamp := t1 },
              { sender := "Charlie", receiver := "Dave", amount := 0.75, timestamp := t2 }],
           timestamp := tB, current_hash := g }]] := by
  simp [add_block_states, h, add_transaction, MAX_TRANSACTIONS, strTake_Alice, strTake_Bob,
    strTake_Charlie, strTake_Dave]

/-- Appending a block whose previous_hash matches the tail's current_hash
preserves acceptance by verify_blockchain. -/
lemma verify_eq_none_append (tail nb : Block) (hm : nb.previous_hash = tail.current_hash) :
    ∀ (chain : List Block), chain.getLast? = some tail →
      verify_blockchain chain = none → verify_blockchain (chain ++ [nb]) = none := by
  intro chain
  induction chain with
  | nil => intro h _; simp at h
  | cons a rest ih =>
    intro h hv
    cases rest with
    | nil =>
      have ha : a = tail := by simpa using h
      subst ha
      show verify_blockchain (a :: [nb]) = none
      rw [verify_cons_cons, if_pos hm]
      exact verify_singleton nb
    | cons b rest2 =>
      have hcond : b.previous_hash = a.current_hash := by
        by_contra hc
        rw [verify_cons_cons, if_neg hc] at hv
        exact Option.noConfusion hv
      rw [verify_cons_cons, if_pos hcond] at hv
      have h2 : (b :: rest2).getLast? = some tail := by
        rw [getLast?_chain] at h
        exact h
      have hrec := ih h2 hv
      show verify_blockchain (a :: b :: (rest2 ++ [nb])) = none
      rw [verify_cons_cons, if_pos hcond]
      exact hrec

lemma calc_index (b : Block) : (calculate_block_hash b).index = b.index := rfl

lemma calc_prev (b : Block) :
    (calculate_block_hash b).previous_hash = b.previous_hash := rfl

lemma calc_txs (b : Block) :
    (calculate_block_hash b).transactions = b.transactions := rfl

lemma calc_ts (b : Block) : (calculate_block_hash b).timestamp = b.timestamp := rfl

lemma calc_hash (b : Block) :
    (calculate_block_hash b).current_hash = block_hash_string b := rfl

lemma getD_append_lt : ∀ (l l2 : List Block) (i : Nat), i < l.length →
    (l ++ l2).getD i default = l.getD i default
  | [], _, i, hi => by simp at hi
  | a :: rest, l2, 0, _ => rfl
  | a :: rest, l2, i + 1, hi => by
    show (a :: (rest ++ l2)).getD (i + 1) default = (a :: rest).getD (i + 1) default
    rw [List.getD_cons_succ, List.getD_cons_succ]
    exact getD_append_lt rest l2 i (by simp at hi; omega)

lemma getD_append_len : ∀ (l : List Block) (b : Block),
    (l ++ [b]).getD l.length default = b
  | [], b => rfl
  | a :: rest, b => by
    show (a :: (rest ++ [b])).getD (rest.length + 1) default = b
    rw [List.getD_cons_succ]
    exact getD_append_len rest b

lemma getLast?_eq_getD : ∀ (c : List Block), c ≠ [] →
    c.getLast? = some (c.getD (c.length - 1) default)
  | [], h => absurd rfl h
  | [a], _ => rfl
  | a :: b :: rest, _ => by
    rw [getLast?_chain, getLast?_eq_getD (b :: rest) (by simp)]
    simp [List.getD_cons_succ]

lemma builtInv_init (g : Int) : BuiltInv g [create_genesis_block g] := by
  refine ⟨by simp, by simp, ?_, verify_singleton _⟩
  intro i hi
  have hz : i = 0 := by simpa using hi
  subst hz
  rfl

lemma builtInv_add_block (g : Int) (c : List Block) (tB t1 t2 : Int)
    (hInv : BuiltInv g c) : BuiltInv g (add_block c tB t1 t2) := by
  obtain ⟨hne, hhead, hidx, hver⟩ := hInv
  have hlen : 1 ≤ c.length := by
    cases c with
    | nil => exact absurd rfl hne
    | cons a l => simp
  have htail : c.getLast? = some (c.getD (c.length - 1) default) :=
    getLast?_eq_getD c hne
  have htidx : (c.getD (c.length - 1) default).index = ((c.length - 1 : Nat) : Int) :=
    hidx _ (by omega)
  rw [add_block_eq c _ htail tB t1 t2]
  refine ⟨by simp, ?_, ?_, ?_⟩
  · cases c with
    | nil => exact absurd rfl hne
    | cons a l => simpa using hhead
  · intro i hi
    rcases Nat.lt_or_ge i c.length with hlt | hge
    · rw [getD_append_lt c _ i hlt]
      exact hidx i hlt
    · have hieq : i = c.length := by
        simp at hi
        omega
      subst hieq
      rw [getD_append_len, calc_index]
      show (c.getD (c.length - 1) default).index + 1 = (c.length : Int)
      rw [htidx]
      omega
  · exact verify_eq_none_append _ _ rfl c htail hver

lemma builtInv_build (g : Int) (steps : List (Int × Int × Int)) :
    BuiltInv g (build_chain g steps) := by
  suffices h : ∀ (st : List (Int × Int × Int)) (c : List Block), BuiltInv g c →
      BuiltInv g (st.foldl (fun c s => add_block c s.1 s.2.1 s.2.2) c) by
    exact h steps _ (builtInv_init g)
  intro st
  induction st with
  | nil => intro c hc; exact hc
  | cons s rest ih =>
    intro c hc
    exact ih _ (builtInv_add_block g c s.1 s.2.1 s.2.2 hc)

lemma pair_ok_of_verify_none : ∀ (c : List Block), verify_blockchain c = none →
    ∀ i, i + 1 < c.length → pair_ok c i
  | [], _, i, hi => by simp at hi
  | [a], _, i, hi => by simp at hi
  | a :: b :: rest, hv, i, hi => by
    have hcond : b.previous_hash = a.current_hash := by
      by_contra hc
      rw [verify_cons_cons, if_neg hc] at hv
      exact Option.noConfusion hv
    cases i with
    | zero => exact hcond
    | succ k =>
      have hv2 : verify_blockchain (b :: rest) = none := by
        rwa [verify_cons_cons, if_pos hcond] at hv
      have hrec := pair_ok_of_verify_none (b :: rest) hv2 k (by simp at hi; simp; omega)
      show pair_ok (a :: b :: rest) (k + 1)
      unfold pair_ok at hrec ⊢
      rwa [List.getD_cons_succ, List.getD_cons_succ]

lemma verify_first_mismatch : ∀ (c : List Block) (j : Nat), j + 1 < c.length →
    (∀ i, i < j → pair_ok c i) → ¬ pair_ok c j →
    verify_blockchain c = some ((c.getD (j + 1) default).index)
  | [], j, h, _, _ => by simp at h
  | [a], j, h, _, _ => by simp at h
  | a :: b :: rest, j, hlen, hpre, hmis => by
    cases j with
    | zero =>
      have hne : ¬ b.previous_hash = a.current_hash := hmis
      rw [verify_cons_cons, if_neg hne]
      rfl
    | succ k =>
      have hcond : b.previous_hash = a.current_hash := hpre 0 (Nat.succ_pos k)
      rw [verify_cons_cons, if_pos hcond]
      have hlen2 : k + 1 < (b :: rest).length := by simp at hlen; simp; omega
      have hpre2 : ∀ i, i < k → pair_ok (b :: rest) i := by
        intro i hi
        have hp := hpre (i + 1) (by omega)
        unfold pair_ok at hp ⊢
        rwa [List.getD_cons_succ, List.getD_cons_succ] at hp
      have hmis2 : ¬ pair_ok (b :: rest) k := by
        intro hcontra
        refine hmis ?_
        unfold pair_ok at hcontra ⊢
        rwa [List.getD_cons_succ, List.getD_cons_succ]
      have hrec := verify_first_mismatch (b :: rest) k hlen2 hpre2 hmis2
      rw [hrec]
      rfl

lemma overwrite_length : ∀ (c : List Block) (j : Nat) (s : String),
    (overwrite_prev_hash c j s).length = c.length
  | [], _, _ => rfl
  | b :: rest, 0, s => rfl
  | b :: rest, j + 1, s => by
    show (overwrite_prev_hash rest j s).length + 1 = rest.length + 1
    rw [overwrite_length rest j s]

lemma overwrite_getD_ne : ∀ (c : List Block) (j i : Nat) (s : String), i ≠ j →
    (overwrite_prev_hash c j s).getD i default = c.getD i default
  | [], _, _, _, _ => rfl
  | b :: rest, 0, 0, s, h => absurd rfl h
  | b :: rest, 0, i + 1, s, h => by
    show ({ b with previous_hash := s } :: rest).getD (i + 1) default =
      (b :: rest).getD (i + 1) default
    rw [List.getD_cons_succ, List.getD_cons_succ]
  | b :: rest, j + 1, 0, s, h => rfl
  | b :: rest, j + 1, i + 1, s, h => by
    show (b :: overwrite_prev_hash rest j s).getD (i + 1) default =
      (b :: rest).getD (i + 1) default
    rw [List.getD_cons_succ, List.getD_cons_succ]
    exact overwrite_getD_ne rest j i s (by omega)

lemma overwrite_getD_eq : ∀ (c : List Block) (j : Nat) (s : String), j < c.length →
    (overwrite_prev_hash c j s).getD j default =
      { c.getD j default with previous_hash := s }
  | [], j, s, h => by simp at h
  | b :: rest, 0, s, _ => rfl
  | b :: rest, j + 1, s, h => by
    show (b :: overwrite_prev_hash rest j s).getD (j + 1) default =
      { (b :: rest).getD (j + 1) default with previous_hash := s }
    rw [List.getD_cons_succ, List.getD_cons_succ]
    exact overwrite_getD_eq rest j s (by simp at h; omega)

/-- C1: for every chain built solely by create_genesis_block followed by any
number of add_block operations (no external mutation), verify_blockchain
returns valid (embedded as `none`). -/
theorem built_chain_verifies_valid (g : Int) (steps : List (Int × Int × Int)) :
    verify_blockchain (build_chain g steps) = none :=
  (builtInv_build g steps).2.2.2

/-- C3: add_transaction appends a transaction if and only if the block holds
strictly fewer than MAX_TRANSACTIONS = 10 transactions, and reports success or
failure accordingly; on a full block the attempt is rejected, the count stays
as it was (10 on a full block) and the block is left completely unchanged. -/
theorem add_transaction_capacity (b : Block) (s r : String) (a : Rat) (t : Int) :
    MAX_TRANSACTIONS = 10 ∧
    ((add_transaction b s r a t).2 = true ↔ b.transactions.length < MAX_TRANSACTIONS) ∧
    (b.transactions.length < MAX_TRANSACTIONS →
      (add_transaction b s r a t).1.transactions =
        b.transactions ++ [{ sender := strTake s 63, receiver := strTake r 63,
                             amount := a, timestamp := t }]) ∧
    (¬ b.transactions.length < MAX_TRANSACTIONS → (add_transaction b s r a t).1 = b) := by
  by_cases h : b.transactions.length < MAX_TRANSACTIONS
  · exact ⟨rfl, by simp [add_transaction, h], fun _ => by simp [add_transaction, h],
      fun hc => absurd h hc⟩
  · exact ⟨rfl, by simp [add_transaction, h], fun hc => absurd hc h,
      fun _ => by simp [add_transaction, h]⟩

/-- C3 witness: on a concrete block already holding 10 transactions, an 11th
append is rejected, reported as failure, and the block, in particular its
transaction count, is unchanged. -/
theorem add_transaction_capacity_witness :
    (add_transaction full_block "Eve" "Frank" 2 7).1 = full_block ∧
    (add_transaction full_block "Eve" "Frank" 2 7).2 = false ∧
    (add_transaction full_block "Eve" "Frank" 2 7).1.transactions.length = 10 := by
  refine ⟨(add_transaction_capacity full_block "Eve" "Frank" 2 7).2.2.2 (by decide),
    by decide, by decide⟩

/-- C4: the hash written by calculate_block_hash is a function of exactly the
three fields index, previous_hash and timestamp: any two blocks agreeing on
those three fields receive identical hashes, whatever their transactions or
other fields. -/
theorem hash_depends_only_on_three_fields (b1 b2 : Block)
    (h1 : b1.index = b2.index) (h2 : b1.previous_hash = b2.previous_hash)
    (h3 : b1.timestamp = b2.timestamp) :
    (calculate_block_hash b1).current_hash = (calculate_block_hash b2).current_hash := by
  rw [calc_hash, calc_hash]
  unfold block_hash_string
  rw [h1, h2, h3]

/-- C4 witness: two concrete blocks with the same index, previous_hash and
timestamp but different transactions and different stored hashes receive the
same computed hash. -/
theorem hash_depends_only_on_three_fields_witness :
    (calculate_block_hash
      { index := 7, previous_hash := "abc", transactions := [], timestamp := 9,
        current_hash := "zz" }).current_hash =
    (calculate_block_hash
      { index := 7, previous_hash := "abc",
        transactions := [{ sender := "s", receiver := "r", amount := 2, timestamp := 3 }],
        timestamp := 9, current_hash := "" }).current_hash :=
  hash_depends_only_on_three_fields _ _ rfl rfl rfl

/-- C10: verify_blockchain reports valid on every chain with fewer than two
blocks: the empty chain and any single-block chain, whatever that block's
fields hold, pass because no adjacent pair exists to check. -/
theorem verify_short_chain_valid :
    verify_blockchain ([] : List Block) = none ∧
    ∀ b : Block, verify_blockchain [b] = none :=
  ⟨rfl, fun _ => rfl⟩

lemma strTake_length_le (s : String) (n : Nat) : (strTake s n).length ≤ n := by
  show (s.data.take n).length ≤ n
  rw [List.length_take]
  omega

/-- C2: in a chain built from genesis by add_block calls in which the
previous_hash of the non-genesis block at position j has been overwritten with
a string differing from its predecessor's current_hash, verify_blockchain
reports invalid and names exactly that block's index (the first offending
successor in front-to-back order). -/
theorem verify_reports_overwritten_block (g : Int) (steps : List (Int × Int × Int))
    (j : Nat) (s : String) (hj : 1 ≤ j) (hlen : j < (build_chain g steps).length)
    (hs : s ≠ ((build_chain g steps).getD (j - 1) default).current_hash) :
    verify_blockchain (overwrite_prev_hash (build_chain g steps) j s) = some (j : Int) := by
  obtain ⟨hne, hhead, hidx, hver⟩ := builtInv_build g steps
  have hjj : j - 1 + 1 = j := by omega
  have hlen2 : (overwrite_prev_hash (build_chain g steps) j s).length =
      (build_chain g steps).length := overwrite_length _ j s
  have hpre : ∀ i, i < j - 1 →
      pair_ok (overwrite_prev_hash (build_chain g steps) j s) i := by
    intro i hi
    have hio : pair_ok (build_chain g steps) i :=
      pair_ok_of_verify_none _ hver i (by omega)
    unfold pair_ok at hio ⊢
    rw [overwrite_getD_ne _ j (i + 1) s (by omega), overwrite_getD_ne _ j i s (by omega)]
    exact hio
  have hmis : ¬ pair_ok (overwrite_prev_hash (build_chain g steps) j s) (j - 1) := by
    intro hp
    unfold pair_ok at hp
    rw [hjj, overwrite_getD_eq _ j s hlen,
      overwrite_getD_ne _ j (j - 1) s (by omega)] at hp
    exact hs hp
  have hfm := verify_first_mismatch _ (j - 1) (by omega) hpre hmis
  rw [hjj] at hfm
  rw [hfm, overwrite_getD_eq _ j s hlen]
  show some ((build_chain g steps).getD j default).index = some (j : Int)
  rw [hidx j hlen]

/-- C2 witness: on a concrete three-block chain whose block at position 2 has
its previous_hash overwritten with "x", verify_blockchain reports index 2. -/
theorem verify_reports_overwritten_block_witness :
    verify_blockchain
      (overwrite_prev_hash (build_chain 0 [(1, 2, 3), (4, 5, 6)]) 2 "x") =
      some ((2 : Nat) : Int) :=
  verify_reports_overwritten_block 0 [(1, 2, 3), (4, 5, 6)] 2 "x"
    (by decide) (by decide) (by decide)

/-- C5 counterexample: the claim that a block is never linked into the chain
before its fingerprint is assigned fails.  Running add_block on the chain
consisting of the genesis block, with allocation contents "?" in the fresh
block's current_hash, the very first intermediate state after the link (state
1 of add_block_states) already contains the new block as second chain element
while its current_hash still holds the unassigned contents "?", which differs
from the fingerprint the final state assigns. -/
theorem linked_block_hash_unassigned :
    (((add_block_states [create_genesis_block 0] "?" 1 2 3).getD 1 []).length = 2) ∧
    ((((add_block_states [create_genesis_block 0] "?" 1 2 3).getD 1 []).getD 1
        default).current_hash = "?") ∧
    ((((add_block_states [create_genesis_block 0] "?" 1 2 3).getD 4 []).getD 1
        default).current_hash ≠ "?") := by
  decide

/-- C5 (amended): each add_block call assigns the new block's fingerprint
exactly once, from the block's final field values, after the block's
transactions are seeded and before add_block returns, and it never touches the
existing blocks; however the new block is linked as the tail's successor
before the fingerprint is assigned, so in the intermediate states 1 to 3 the
linked block's current_hash still holds its original allocation contents. -/
theorem fingerprint_assigned_once_link_first (chain : List Block) (tail : Block)
    (h : chain.getLast? = some tail) (g : String) (tB t1 t2 : Int) :
    (∃ b, (add_block_states chain g tB t1 t2).getD 1 [] = chain ++ [b] ∧
      b.current_hash = g) ∧
    (∃ b, (add_block_states chain g tB t1 t2).getD 2 [] = chain ++ [b] ∧
      b.current_hash = g) ∧
    (∃ b, (add_block_states chain g tB t1 t2).getD 3 [] = chain ++ [b] ∧
      b.current_hash = g) ∧
    (add_block_states chain g tB t1 t2).getD 4 [] = add_block chain tB t1 t2 ∧
    (∃ nb, add_block chain tB t1 t2 = chain ++ [nb] ∧
      nb.current_hash = block_hash_string nb) := by
  rw [add_block_states_eq chain tail h g tB t1 t2, add_block_eq chain tail h tB t1 t2]
  exact ⟨⟨_, rfl, rfl⟩, ⟨_, rfl, rfl⟩, ⟨_, rfl, rfl⟩, rfl, ⟨_, rfl, rfl⟩⟩

/-- C5 (amended) witness: the trace facts instantiated on the concrete chain
holding only the genesis block. -/
theorem fingerprint_assigned_once_link_first_witness :
    (add_block_states [create_genesis_block 0] "?" 1 2 3).getD 4 [] =
      add_block [create_genesis_block 0] 1 2 3 :=
  (fingerprint_assigned_once_link_first [create_genesis_block 0]
    (create_genesis_block 0) rfl "?" 1 2 3).2.2.2.1

/-- C6 counterexample: the claim that the seeded transactions of an appended
block are determined by a caller-supplied transactions_to_seed argument fails;
add_block takes no such argument and unconditionally seeds the two hard-coded
sample transactions, so in particular the block appended to the concrete
genesis chain carries exactly those two transactions and an empty seed is
impossible. -/
theorem add_block_seeds_fixed_sample :
    ((add_block [create_genesis_block 0] 1 2 3).getD 1 default).transactions =
      [{ sender := "Alice", receiver := "Bob", amount := 1.5, timestamp := 2 },
       { sender := "Charlie", receiver := "Dave", amount := 0.75, timestamp := 3 }] ∧
    ((add_block [create_genesis_block 0] 1 2 3).getD 1 default).transactions.length ≠ 0 := by
  rw [add_block_eq [create_genesis_block 0] (create_genesis_block 0) rfl 1 2 3]
  exact ⟨rfl, by decide⟩

/-- C6 (amended): add_block constructs its new block with index equal to the
tail's index plus one and previous_hash copied from the tail's current_hash,
links it as the tail's successor, seeds it with exactly the two fixed sample
transactions (Alice to Bob 1.5 and Charlie to Dave 0.75, each added through
the capacity-checked add_transaction), and computes its fingerprint from its
final field values; the caller supplies no transactions. -/
theorem add_block_spec (chain : List Block) (tail : Block)
    (h : chain.getLast? = some tail) (tB t1 t2 : Int) :
    ∃ nb, add_block chain tB t1 t2 = chain ++ [nb] ∧
      nb.index = tail.index + 1 ∧
      nb.previous_hash = tail.current_hash ∧
      nb.transactions =
        [{ sender := "Alice", receiver := "Bob", amount := 1.5, timestamp := t1 },
         { sender := "Charlie", receiver := "Dave", amount := 0.75, timestamp := t2 }] ∧
      nb.timestamp = tB ∧
      nb.current_hash = block_hash_string nb := by
  rw [add_block_eq chain tail h tB t1 t2]
  exact ⟨_, rfl, rfl, rfl, rfl, rfl, rfl⟩

/-- C6 (amended) witness: the appended-block specification instantiated on the
concrete chain holding only the genesis block. -/
theorem add_block_spec_witness :
    ∃ nb, add_block [create_genesis_block 0] 1 2 3 = [create_genesis_block 0] ++ [nb] ∧
      nb.index = (create_genesis_block 0).index + 1 ∧
      nb.previous_hash = (create_genesis_block 0).current_hash ∧
      nb.transactions =
        [{ sender := "Alice", receiver := "Bob", amount := 1.5, timestamp := 2 },
         { sender := "Charlie", receiver := "Dave", amount := 0.75, timestamp := 3 }] ∧
      nb.timestamp = 1 ∧
      nb.current_hash = block_hash_string nb :=
  add_block_spec [create_genesis_block 0] (create_genesis_block 0) rfl 1 2 3

/-- C7: the genesis block always has index 0, the sentinel all-zero
previous_hash, no transactions, the creation timestamp it was given, and a
current_hash computed from its fields; in every chain built from genesis by
add_block calls it sits at the head and is the unique block with index 0. -/
theorem genesis_block_spec (now : Int) (steps : List (Int × Int × Int)) :
    (create_genesis_block now).index = 0 ∧
    (create_genesis_block now).previous_hash = GENESIS_PREV_HASH ∧
    (create_genesis_block now).transactions = [] ∧
    (create_genesis_block now).timestamp = now ∧
    (create_genesis_block now).current_hash = block_hash_string (create_genesis_block now) ∧
    (build_chain now steps).head? = some (create_genesis_block now) ∧
    (∀ i, 0 < i → i < (build_chain now steps).length →
      ((build_chain now steps).getD i default).index ≠ 0) := by
  obtain ⟨hne, hhead, hidx, hver⟩ := builtInv_build now steps
  refine ⟨rfl, rfl, rfl, rfl, rfl, hhead, ?_⟩
  intro i h0 hlen
  rw [hidx i hlen]
  omega

/-- C7 witness: the genesis facts instantiated on a concrete two-block chain,
showing in particular that the non-genesis block's index differs from 0. -/
theorem genesis_block_spec_witness :
    ((build_chain 5 [(1, 2, 3)]).getD 1 default).index ≠ 0 :=
  (genesis_block_spec 5 [(1, 2, 3)]).2.2.2.2.2.2 1 (by decide) (by decide)

/-- C8: in every chain built from genesis by add_block calls, the block at
position i carries index i, so a chain of n blocks has indices 0 to n - 1 in
traversal order; the quantification over all step lists shows the invariant is
preserved by every append. -/
theorem built_chain_indices_sequential (g : Int) (steps : List (Int × Int × Int)) :
    ∀ i, i < (build_chain g steps).length →
      ((build_chain g steps).getD i default).index = (i : Int) :=
  (builtInv_build g steps).2.2.1

/-- C8 witness: the position-index law instantiated on a concrete three-block
chain at position 2. -/
theorem built_chain_indices_sequential_witness :
    ((build_chain 0 [(1, 2, 3), (4, 5, 6)]).getD 2 default).index = ((2 : Nat) : Int) :=
  built_chain_indices_sequential 0 [(1, 2, 3), (4, 5, 6)] 2 (by decide)

/-- C9 counterexample: fingerprints are not fixed-length text.  Two genesis
blocks created at different timestamps receive fingerprints of lengths 16 and
15: the "%lx" rendering carries no padding, so the length varies with the
hash value. -/
theorem fingerprint_length_varies :
    (create_genesis_block 0).current_hash.length = 16 ∧
    (create_genesis_block 100000000000000).current_hash.length = 15 ∧
    (create_genesis_block 0).current_hash.length ≠
      (create_genesis_block 100000000000000).current_hash.length := by
  decide

/-- C9 (amended): fingerprints are variable-length hexadecimal text of at most
HASH_LENGTH - 1 = 31 characters (the output buffer cap; the 64-bit value
itself renders to at most 16), and a non-genesis block's previous_fingerprint
is that text copied verbatim from the predecessor's current_hash at append
time. -/
theorem fingerprint_bounded_and_copied :
    (∀ b : Block, (block_hash_string b).length ≤ HASH_LENGTH - 1) ∧
    (∀ (chain : List Block) (tail : Block) (tB t1 t2 : Int),
      chain.getLast? = some tail →
      ∃ nb, add_block chain tB t1 t2 = chain ++ [nb] ∧
        nb.previous_hash = tail.current_hash) := by
  constructor
  · intro b
    exact strTake_length_le _ (HASH_LENGTH - 1)
  · intro chain tail tB t1 t2 h
    rw [add_block_eq chain tail h tB t1 t2]
    exact ⟨_, rfl, rfl⟩

/-- C9 (amended) witness: the bound and the verbatim copy instantiated on
concrete inputs. -/
theorem fingerprint_bounded_and_copied_witness :
    (block_hash_string default).length ≤ HASH_LENGTH - 1 ∧
    (∃ nb, add_block [create_genesis_block 0] 1 2 3 = [create_genesis_block 0] ++ [nb] ∧
      nb.previous_hash = (create_genesis_block 0).current_hash) :=
  ⟨fingerprint_bounded_and_copied.1 default,
   fingerprint_bounded_and_copied.2 [create_genesis_block 0] (create_genesis_block 0)
     1 2 3 rfl⟩
